import Mathlib

/-!
Verification of the `scry_asm` raw assembler core (`src/raw.rs`) via a
shallow embedding.  Tokens are modelled as `List Char` (a Rust `&str`
slice); the assembler input (an iterator of `&str` items) is a
`List (List Char)`.  Machine integers (`i32`, `i128`, `u128`) are
modelled as `Int`/`Nat`; the width-16 bound computations that overflow
128-bit arithmetic in the source are treated explicitly by the theorems
about that overflow.
-/

namespace ScryAsm

/-- A token: a read-only view into source text (`&str`). -/
abbrev Tok := List Char

/-- Shorthand to build a token from a string literal. -/
def strT (s : String) : Tok := s.data

/-- Prepend a character to the first piece of a piece list, creating a
piece when none exists.  Helper for the splitting functions below. -/
def consHead (c : Char) : List Tok → List Tok
  | [] => [[c]]
  | p :: ps => (c :: p) :: ps

/-- Comment stripping state machine, embedding the `split_once(';')` loop
of `Raw::assemble` (src/raw.rs lines 209-222).  In normal mode (`false`)
characters accumulate into the current piece; a `;` closes the piece and
enters comment mode (`true`), which discards characters until a LF or CR
(the newline itself is consumed, matching `split_once(&['\r','\n'])`).
Input ending inside a comment yields a final empty piece, matching
`map_or("", ...)` followed by the final `result.push(s)`. -/
def scAux : Bool → List Char → List Tok
  | _, [] => [[]]
  | false, c :: rest =>
      if c = ';' then [] :: scAux true rest else consHead c (scAux false rest)
  | true, c :: rest =>
      if c = '\n' ∨ c = '\r' then scAux false rest else scAux true rest

/-- The comment-removal `flat_map` body (src/raw.rs lines 209-222). -/
def stripComments (s : Tok) : List Tok := scAux false s

/-- Whitespace per Rust `char::is_whitespace`, restricted to the ASCII
range that the assembler grammar can contain. -/
def isWsChar (c : Char) : Bool :=
  c = ' ' ∨ c = '\t' ∨ c = '\n' ∨ c = '\r' ∨ c = '\x0b' ∨ c = '\x0c'

/-- `s.split(char::is_whitespace)` (src/raw.rs line 224): splits at every
whitespace character, keeping empty pieces (they are filtered next). -/
def splitWs : List Char → List Tok
  | [] => [[]]
  | c :: rest => if isWsChar c then [] :: splitWs rest else consHead c (splitWs rest)

/-- `s.split_inclusive(":")` (src/raw.rs line 227): pieces end just after
each `:`; a trailing piece without `:` is kept; the empty string yields
no pieces. -/
def splitIncl : List Char → List Tok
  | [] => []
  | c :: rest => if c = ':' then [c] :: splitIncl rest else consHead c (splitIncl rest)

/-- The complete per-item cleaning pipeline of `Raw::assemble`
(src/raw.rs lines 207-228): strip comments, split on whitespace, drop
empty pieces, split inclusively after `:`. -/
def cleanItem (s : Tok) : List Tok :=
  ((((stripComments s).flatMap splitWs).filter (fun t => ¬ t = [])).flatMap splitIncl)

/-- The `cleaned` token stream of `Raw::assemble` applied to an input
iterator: every pipeline stage is element-wise, so the whole tokenizer
is a `flatMap` of `cleanItem` over the input items. -/
def cleaned (input : List Tok) : List Tok := input.flatMap cleanItem

/-- The consumed-tokens descriptor of the instruction-set library
(`scry_isa::CanConsume`).  Modelled from the spec: "(whole tokens
consumed, characters consumed within the next token)" (spec §3). -/
structure CanConsume where
  tokens : Nat
  chars : Nat
deriving DecidableEq

/-- Sequencing of two consumption descriptors (the source's
`consumed.then(&consumed2)`), where the second was measured on the
stream left over by the first.  Modelled from the spec (§3, §4.4). -/
def CanConsume.seq (a b : CanConsume) : CanConsume :=
  if b.tokens = 0 then ⟨a.tokens, a.chars + b.chars⟩ else ⟨a.tokens + b.tokens, b.chars⟩

/-- The symbol-resolution request union (`scry_isa::Resolve`).
Modelled from the spec: `Address(label)`, `DistanceFromCurrent(label)`,
`Distance(labelFrom, labelTo)` (spec §3). -/
inductive Resolve where
  | Address (s : Tok)
  | DistanceCurrent (s : Tok)
  | Distance (s1 s2 : Tok)

/-- Does token `t` begin with the literal `w`? -/
def litMatches : List Char → Tok → Bool
  | [], _ => true
  | _ :: _, [] => false
  | c :: w, d :: t => c = d ∧ litMatches w t

/-- Modelled from the spec: an atomic parser of the instruction-set
library consuming the literal word `w` (the `.bytes` keyword, the
comma, the `=>` arrow).  It consumes characters from the head token;
finishing the token exactly counts it as one fully consumed token,
otherwise the partially consumed head is re-sliced (spec §4.4). -/
def parseLit (w : List Char) : List Tok → Option (List Tok × CanConsume)
  | [] => none
  | t :: ts =>
      if litMatches w t then
        let r := t.drop w.length
        if r = [] then some (ts, ⟨1, 0⟩) else some (r :: ts, ⟨0, w.length⟩)
      else none

/-- Modelled from the spec: `TypeMatcher` of the instruction-set
library.  Grammar (spec §4.3): type is `u0..u4` unsigned or `i0..i4`
signed (suffix n ≤ 4); returns (signed?, suffix n). -/
def parseTypeTok : List Tok → Option ((Bool × Nat) × List Tok × CanConsume)
  | [] => none
  | t :: ts =>
      match t with
      | c1 :: c2 :: r =>
          if (c1 = 'u' ∨ c1 = 'i') ∧ c2.isDigit ∧ c2.toNat - '0'.toNat ≤ 4 then
            let sn := (c1 == 'i', c2.toNat - '0'.toNat)
            if r = [] then some (sn, ts, ⟨1, 0⟩) else some (sn, r :: ts, ⟨0, 2⟩)
          else none
      | _ => none

/-- May `c` start an identifier?  Modelled from the spec: symbolic
values are labels/identifiers; digits are excluded so that plain
integer literals are not parsed as symbols. -/
def isIdentStart (c : Char) : Bool := c.isAlpha ∨ c = '_'

/-- May `c` continue an identifier? -/
def isIdentChar (c : Char) : Bool := c.isAlphanum ∨ c = '_'

/-- Modelled from the spec: the `Symbol` parser of the instruction-set
library: a maximal identifier run at the head of the current token. -/
def parseSymbol : List Tok → Option (Tok × List Tok × CanConsume)
  | [] => none
  | t :: ts =>
      match t with
      | c :: _ =>
          if isIdentStart c then
            let sym := t.takeWhile isIdentChar
            let r := t.drop sym.length
            if r = [] then some (sym, ts, ⟨1, 0⟩) else some (sym, r :: ts, ⟨0, sym.length⟩)
          else none
      | [] => none

/-- Decimal digits to a number. -/
def digitsToNat (ds : List Char) : Nat :=
  ds.foldl (fun a c => a * 10 + (c.toNat - '0'.toNat)) 0

/-- Modelled from the spec: the `u128` decimal-literal parser of the
instruction-set library (maximal digit run at the head token). -/
def parseNatLit : List Tok → Option (Nat × List Tok × CanConsume)
  | [] => none
  | t :: ts =>
      let ds := t.takeWhile Char.isDigit
      if ds = [] then none
      else
        let r := t.drop ds.length
        if r = [] then some (digitsToNat ds, ts, ⟨1, 0⟩)
        else some (digitsToNat ds, r :: ts, ⟨0, ds.length⟩)

/-- Modelled from the spec: the `i128` decimal-literal parser
(optionally minus-signed). -/
def parseIntLit : List Tok → Option (Int × List Tok × CanConsume)
  | [] => none
  | t :: ts =>
      match t with
      | '-' :: r0 =>
          let ds := r0.takeWhile Char.isDigit
          if ds = [] then none
          else
            let r := r0.drop ds.length
            if r = [] then some (-(digitsToNat ds : Int), ts, ⟨1, 0⟩)
            else some (-(digitsToNat ds : Int), r :: ts, ⟨0, ds.length + 1⟩)
      | _ =>
          match parseNatLit (t :: ts) with
          | some (n, rest, c) => some ((n : Int), rest, c)
          | none => none

/-- The keyword of the data-emission directive (`DirBytesKeyword::WORD`,
src/raw.rs line 93). -/
def dirBytesWord : List Char := strT ".bytes"

/-- The arrow of a symbolic distance value (`label1=>label2`). -/
def arrowWord : List Char := strT "=>"

/-- The `Then::<DirBytesKeyword, Then<TypeMatcher<4,3>, Comma>>::parse`
prefix of `parse_bytes_direcive` (src/raw.rs line 105): keyword, type,
comma, with partial-token consumption threaded by `CanConsume.seq`. -/
def parseKwTypeComma (toks : List Tok) : Option ((Bool × Nat) × List Tok × CanConsume) :=
  match parseLit dirBytesWord toks with
  | none => none
  | some (toks1, c1) =>
      match parseTypeTok toks1 with
      | none => none
      | some (sn, toks2, c2) =>
          match parseLit [','] toks2 with
          | none => none
          | some (toks3, c3) => some (sn, toks3, c1.seq (c2.seq c3))

/-- Parse-error taxonomy of the instruction-set library.  Modelled from
the spec (§6): `{NoMatch, UnknownSymbol, OutOfBoundValue(value,min,max)}`;
the offending fragment is carried for error reporting
(`err.extract_from_iter`). -/
inductive PErr where
  | noMatch
  | unknownSym (s : Tok)
  | outOfBound (v mn mx : Int) (frag : Tok)

/-- The `Then::<Symbol, Maybe<Then<Arrow, Symbol>>>::parse` plus
resolution step of `parse_bytes_direcive` (src/raw.rs lines 115-132):
parse `sym` or `sym1=>sym2`; resolve as `Address`/`Distance`; a
resolver failure becomes an `UnknownSymbol` parse error.  A failure of
the `Maybe` part (arrow without a following symbol) backtracks to the
plain-symbol form, consuming nothing of it. -/
def parseRefValue (toks : List Tok) (f : Resolve → Except Tok Int) :
    Except PErr (Int × List Tok × CanConsume) :=
  match parseSymbol toks with
  | none => .error .noMatch
  | some (sym1, toks1, c1) =>
      match parseLit arrowWord toks1 with
      | some (toks2, c2) =>
          match parseSymbol toks2 with
          | some (sym2, toks3, c3) =>
              match f (.Distance sym1 sym2) with
              | .ok v => .ok (v, toks3, c1.seq (c2.seq c3))
              | .error s => .error (.unknownSym s)
          | none =>
              match f (.Address sym1) with
              | .ok v => .ok (v, toks1, c1)
              | .error s => .error (.unknownSym s)
      | none =>
          match f (.Address sym1) with
          | .ok v => .ok (v, toks1, c1)
          | .error s => .error (.unknownSym s)

/-- `u128::MAX` as a mathematical integer. -/
def u128Max : Nat := 2 ^ 128 - 1

/-- `i128::MAX` as a mathematical integer. -/
def i128Max : Int := 2 ^ 127 - 1

/-- The signed minimum bound `(2i128.pow((size * 8) - 1) * (-1)) - 1`
(src/raw.rs line 147), in exact arithmetic. -/
def signedMinBound (size : Nat) : Int := -((2 : Int) ^ (size * 8 - 1)) - 1

/-- The signed maximum bound `2i128.pow((size * 8) - 1)` (line 148). -/
def signedMaxBound (size : Nat) : Int := (2 : Int) ^ (size * 8 - 1)

/-- The unsigned maximum bound `2u128.pow(size * 8)` (line 178). -/
def unsignedMaxBound (size : Nat) : Nat := 2 ^ (size * 8)

/-- `val.to_le_bytes().take(size)` for a signed 128-bit value
(src/raw.rs line 153): two's-complement little-endian bytes. -/
def leBytesI (v : Int) (size : Nat) : List Nat :=
  (List.range size).map (fun i => ((v.emod (2 ^ 128)).toNat / 2 ^ (8 * i)) % 256)

/-- `val.to_le_bytes().take(size)` for an unsigned 128-bit value
(src/raw.rs line 183). -/
def leBytesN (v : Nat) (size : Nat) : List Nat :=
  (List.range size).map (fun i => ((v % 2 ^ 128) / 2 ^ (8 * i)) % 256)

/-- The signed out-of-bounds message (src/raw.rs lines 159-162). -/
def boundErrMsgI (v mn mx : Int) : String :=
  "Bytes value out of bounds (actual, minimum, maximum): " ++ toString v ++ ", "
    ++ toString mn ++ ", " ++ toString mx

/-- The unsigned out-of-bounds message (src/raw.rs lines 189-192); the
minimum is the literal `0`. -/
def boundErrMsgN (v mx : Nat) : String :=
  "Bytes value out of bounds (actual, minimum, maximum): " ++ toString v ++ ", 0, "
    ++ toString mx

/-- The signed bound-check-and-emit step of `parse_bytes_direcive`
(src/raw.rs lines 146-164). -/
def emitSignedBytes (size : Nat) (v : Int) (c : CanConsume) :
    Except String (List Nat × CanConsume) :=
  if signedMinBound size ≤ v ∧ signedMaxBound size ≥ v then
    .ok (leBytesI v size, c)
  else .error (boundErrMsgI v (signedMinBound size) (signedMaxBound size))

/-- The unsigned bound-check-and-emit step (src/raw.rs lines 177-194). -/
def emitUnsignedBytes (size : Nat) (v : Nat) (c : CanConsume) :
    Except String (List Nat × CanConsume) :=
  if unsignedMaxBound size ≥ v then
    .ok (leBytesN v size, c)
  else .error (boundErrMsgN v (unsignedMaxBound size))

/-- Modelled from the spec: the `format!("{:?}", err)` rendering of an
instruction-set parse error (src/raw.rs lines 145, 176).  The exact
Debug text is defined outside this repository; no claim depends on it. -/
def debugFmt : PErr → String
  | .noMatch => "NoMatch"
  | .unknownSym s => "UnknownSymbol: " ++ String.mk s
  | .outOfBound v mn mx _ =>
      "OutOfBoundValue: " ++ toString v ++ " " ++ toString mn ++ " " ++ toString mx

/-- The `val as u128` cast of a resolved (possibly negative) `i32` value
(src/raw.rs line 169): two's-complement reinterpretation at 128 bits. -/
def intAsU128 (v : Int) : Nat := (v.emod (2 ^ 128)).toNat

/-- `parse_bytes_direcive` (src/raw.rs lines 96-197).  Parses
`.bytes <type>, <value>`; tries the symbolic value (resolver `f`)
first, falls back to a plain decimal literal (`or_else`, discarding the
symbolic error), bound-checks and emits `size = 2^n` little-endian
bytes.  The `i128`/`u128` bound arithmetic of the source is modelled in
exact integers; its width-16 overflow is the subject of the C9 theorem.
The suffix bound n ≤ 4 enforced here by the type matcher corresponds to
the source's `assert!(pow2 <= 4)` (line 112). -/
def parse_bytes_direcive (toks : List Tok) (f : Resolve → Except Tok Int) :
    Except String (List Nat × CanConsume) :=
  match parseKwTypeComma toks with
  | none => .error "Not '.bytes' directive"
  | some ((signed, pow2), toks1, c1) =>
      let size := 2 ^ pow2
      if signed then
        match parseRefValue toks1 f with
        | .ok (v, _, c2) => emitSignedBytes size v (c1.seq c2)
        | .error _ =>
            match parseIntLit toks1 with
            | some (v, _, c2) => emitSignedBytes size v (c1.seq c2)
            | none => .error (debugFmt .noMatch)
      else
        match parseRefValue toks1 f with
        | .ok (v, _, c2) => emitUnsignedBytes size (intAsU128 v) (c1.seq c2)
        | .error _ =>
            match parseNatLit toks1 with
            | some (v, _, c2) => emitUnsignedBytes size v (c1.seq c2)
            | none => .error (debugFmt .noMatch)

/-- Modelled from the spec: `scry_isa::INSTRUCTION_MNEMONICS`.  The
exact set lives in the external instruction-set library; the driver
only needs a fixed recognizable set, taken here from the mnemonics
exercised by this repository's tests. -/
def INSTRUCTION_MNEMONICS : List Tok :=
  [strT "add", strT "sub", strT "inc", strT "dec", strT "jmp",
   strT "echo", strT "dup", strT "cap", strT "ret", strT "const"]

/-- Modelled from the spec: may token `t` belong to the operand list of
an instruction?  Operand text is made of identifiers, decimal digits,
commas, signs and the `=>` arrow (spec §6); a mnemonic, or a token with
any other character (e.g. `.bytes`, a label declaration), ends the
instruction. -/
def isOperandTok (t : Tok) : Bool :=
  ¬ t = []
    ∧ t.all (fun c => isIdentChar c ∨ c = ',' ∨ c = '=' ∨ c = '>' ∨ c = '+' ∨ c = '-')
    ∧ ¬ INSTRUCTION_MNEMONICS.contains t

/-- Identifier runs inside an operand token that denote symbols (runs
beginning with a letter or underscore); fuel-bounded recursion,
`length + 1` always suffices. -/
def symbolRunsF : Nat → Tok → List Tok
  | 0, _ => []
  | _, [] => []
  | fuel + 1, c :: rest =>
      if isIdentStart c then
        let run := (c :: rest).takeWhile isIdentChar
        run :: symbolRunsF fuel ((c :: rest).drop run.length)
      else symbolRunsF fuel rest

/-- Symbol runs of one operand token. -/
def symbolRuns (t : Tok) : List Tok := symbolRunsF (t.length + 1) t

/-- Modelled from the spec: resolution of an instruction's symbolic
operands against the resolver callback; the first missing symbol
aborts with `UnknownSymbol` naming it (spec §6). -/
def resolveSyms (f : Resolve → Except Tok Int) : List Tok → Except PErr Unit
  | [] => .ok ()
  | s :: ss =>
      match f (.DistanceCurrent s) with
      | .ok _ => resolveSyms f ss
      | .error m => .error (.unknownSym m)

/-- Modelled from the spec: `Instruction::parse` of the instruction-set
library (spec §6).  The core relies only on this contract: a
`NoMatch`-class error when the head token is not a mnemonic;
`UnknownSymbol` when a symbolic operand is absent from the table; on
success a fixed 2-byte encoding together with the consumed-tokens
descriptor.  The operand bit layout is out of the spec's scope and is
modelled as a fixed encoding. -/
def instrParse (toks : List Tok) (f : Resolve → Except Tok Int) :
    Except PErr (List Nat × CanConsume) :=
  match toks with
  | [] => .error .noMatch
  | t :: ts =>
      if INSTRUCTION_MNEMONICS.contains t then
        let ops := ts.takeWhile isOperandTok
        match resolveSyms f (ops.flatMap symbolRuns) with
        | .ok _ => .ok ([0, 0], ⟨1 + ops.length, 0⟩)
        | .error e => .error e
      else .error .noMatch

/-- The label table (`HashMap<&str, i32>`, src/raw.rs line 231), as an
association list; the measure pass guarantees distinct keys. -/
abbrev LabelTable := List (Tok × Int)

/-- Label-table lookup (`label_addresses.get`). -/
def lookupTbl : LabelTable → Tok → Option Int
  | [], _ => none
  | (k, v) :: rest, s => if k = s then some v else lookupTbl rest s

/-- `label_addresses.contains_key`. -/
def containsTbl (tbl : LabelTable) (s : Tok) : Bool := (lookupTbl tbl s).isSome

/-- `label_addresses[sym]` (indexing, guarded by `contains_key`). -/
def getTbl (tbl : LabelTable) (s : Tok) : Int := (lookupTbl tbl s).getD 0

/-- The emit-pass resolver closure `f` (src/raw.rs lines 320-347):
`Address` and `DistanceCurrent` look the label up (the error carries
the missing name); `Distance(sym1, sym2)` checks `sym2` first, then
`sym1`, and returns `table[sym2] - table[sym1]`. -/
def emitResolver (tbl : LabelTable) (byteCount : Int) : Resolve → Except Tok Int
  | .Address s =>
      match lookupTbl tbl s with
      | some a => .ok a
      | none => .error s
  | .DistanceCurrent s =>
      match lookupTbl tbl s with
      | some a => .ok (a - byteCount)
      | none => .error s
  | .Distance s1 s2 =>
      if ¬ containsTbl tbl s2 then .error s2
      else if ¬ containsTbl tbl s1 then .error s1
      else .ok (getTbl tbl s2 - getTbl tbl s1)

/-- The measure-pass placeholder resolver `|_: Resolve| Ok(2)`
(src/raw.rs line 280). -/
def placeholderResolver : Resolve → Except Tok Int := fun _ => .ok 2

/-- The measure pass's use of `advance_iter_in_place` (src/raw.rs lines
286-290): the partial-token remainder (`.1`) is discarded there, so a
partially consumed token is dropped whole. -/
def advMeasure (c : CanConsume) (toks : List Tok) : List Tok :=
  toks.drop (c.tokens + if c.chars = 0 then 0 else 1)

/-- Does the token end with the label marker? -/
def endsWithColon (t : Tok) : Bool := t.getLast? = some ':'

/-- `tok.split(':').next().unwrap()` (src/raw.rs line 263). -/
def labelOf (t : Tok) : Tok := t.takeWhile (fun c => ¬ c = ':')

/-- `tok.ends_with(':') || clean_peek.peek() == Some(&":")`
(src/raw.rs line 259). -/
def isLabelPos (t : Tok) (rest : List Tok) : Bool :=
  endsWithColon t ∨ rest.head? = some [':']

/-- The duplicate-label message (src/raw.rs lines 266-269). -/
def dupMsg (label : Tok) : String := "'" ++ String.mk label ++ "' defined twice"

/-- The first (measure) pass of `Raw::assemble` (src/raw.rs lines
246-306): record label addresses (a duplicate insertion is fatal),
parse `.bytes` directives with the placeholder resolver and accumulate
their byte length (a directive error is fatal), count 2 bytes per
mnemonic token, skip everything else.  Fuel only bounds the loop;
`toks.length` iterations always suffice because every iteration
consumes at least one token. -/
def measurePass : Nat → List Tok → LabelTable → Int → Except String (LabelTable × Int)
  | _, [], tbl, count => .ok (tbl, count)
  | 0, _ :: _, _, _ => .error "out of fuel"
  | fuel + 1, tok :: rest, tbl, count =>
      if isLabelPos tok rest then
        let label := labelOf tok
        if containsTbl tbl label then .error (dupMsg label)
        else measurePass fuel rest ((label, count) :: tbl) count
      else if tok = dirBytesWord then
        match parse_bytes_direcive (tok :: rest) placeholderResolver with
        | .ok (bytes, c) =>
            measurePass fuel (advMeasure c (tok :: rest)) tbl (count + bytes.length)
        | .error e => .error ("Directive parsing error: " ++ e)
      else if INSTRUCTION_MNEMONICS.contains tok then
        measurePass fuel rest tbl (count + 2)
      else measurePass fuel rest tbl count

/-- The sequence of label names the measure pass inserts, in order,
following exactly the branch structure of `measurePass` (a fatal
directive error stops the walk, as it stops the pass). -/
def declaredNames : Nat → List Tok → List Tok
  | _, [] => []
  | 0, _ :: _ => []
  | fuel + 1, tok :: rest =>
      if isLabelPos tok rest then labelOf tok :: declaredNames fuel rest
      else if tok = dirBytesWord then
        match parse_bytes_direcive (tok :: rest) placeholderResolver with
        | .ok (_, c) => declaredNames fuel (advMeasure c (tok :: rest))
        | .error _ => []
      else declaredNames fuel rest

/-- `GroupIter::next`'s skip loop (src/raw.rs lines 36-43): drop tokens
up to and including the first that ends with `:`. -/
def dropThroughColon : List Tok → List Tok
  | [] => []
  | t :: ts => if endsWithColon t then ts else dropThroughColon ts

/-- The group decomposition produced by `GroupIter<_, false>`
(src/raw.rs lines 17-88 and 309-311): each group holds the tokens
before the next label boundary (a token containing `:`); with
`EMIT_LABEL = false` the boundary itself contributes nothing.
Fuel-bounded; `length + 1` suffices since the remainder shrinks at
every step. -/
def groupsOfF : Nat → List Tok → List (List Tok)
  | 0, _ => []
  | _, [] => []
  | fuel + 1, t :: ts =>
      ((t :: ts).takeWhile (fun tk => ¬ tk.contains ':'))
        :: groupsOfF fuel (dropThroughColon (t :: ts))

/-- `consumed.advance_iter_in_place` as used by the emit pass
(src/raw.rs lines 355-357 and 368-370): drop the fully consumed
tokens and re-slice a partially consumed head into the new
`next_token`. -/
def advanceIter (c : CanConsume) (toks : List Tok) : Option Tok × List Tok :=
  let rest := toks.drop c.tokens
  if c.chars = 0 then (none, rest)
  else
    match rest with
    | [] => (none, [])
    | t :: ts =>
        let r := t.drop c.chars
        (if r = [] then none else some r, ts)

/-- Fuel for the emit loop of one group: every loop iteration consumes
at least one character or token, so total size plus one suffices. -/
def groupFuel (g : List Tok) : Nat := (g.map List.length).sum + g.length + 1

/-- The inner emit loop for one group (src/raw.rs lines 314-399):
alternately try the `.bytes` directive and an instruction on
`next_token ++ group`, appending emitted bytes and advancing the byte
counter.  An `UnknownSymbol` or `OutOfBoundValue` error from the
instruction parse is fatal; any other instruction error ends the group
("Group finished", line 395).  A failed directive parse is discarded by
the `if let Ok` (line 351).  Returns the group's bytes and the updated
byte count. -/
def emitGroup : Nat → LabelTable → Int → Option Tok → List Tok →
    Except String (List Nat × Int)
  | 0, _, _, _, _ => .error "out of fuel"
  | fuel + 1, tbl, byteCount, pending, group =>
      let allToks := pending.toList ++ group
      match parse_bytes_direcive allToks (emitResolver tbl byteCount) with
      | .ok (bytes, c) =>
          let nxt := advanceIter c allToks
          match emitGroup fuel tbl (byteCount + bytes.length) nxt.1 nxt.2 with
          | .ok (more, bc) => .ok (bytes ++ more, bc)
          | .error e => .error e
      | .error _ =>
          match instrParse allToks (emitResolver tbl byteCount) with
          | .ok (bytes, c) =>
              let nxt := advanceIter c allToks
              match emitGroup fuel tbl (byteCount + 2) nxt.1 nxt.2 with
              | .ok (more, bc) => .ok (bytes ++ more, bc)
              | .error e => .error e
          | .error e =>
              match e with
              | .unknownSym s => .error ("Unknown label: " ++ String.mk s)
              | .outOfBound v mn mx frag =>
                  .error ("Invalid Value (Should be " ++ toString mn ++ " - "
                    ++ toString mx ++ "): " ++ toString v ++ "\nSource: " ++ String.mk frag)
              | .noMatch => .ok ([], byteCount)

/-- The second (emit) pass (src/raw.rs lines 308-400): walk the groups,
emitting each with `emitGroup`; the byte counter persists across
groups, the buffer is the concatenation of the groups' bytes. -/
def emitPass : List (List Tok) → LabelTable → Int → Except String (List Nat)
  | [], _, _ => .ok []
  | g :: gs, tbl, byteCount =>
      match emitGroup (groupFuel g) tbl byteCount none g with
      | .error e => .error e
      | .ok (bytes, bc) =>
          match emitPass gs tbl bc with
          | .error e => .error e
          | .ok more => .ok (bytes ++ more)

/-- `Raw::assemble` (src/raw.rs lines 203-402): tokenize, measure
(recording label addresses, fatally on a duplicate label or directive
error), then emit against the completed table.  The measured byte
count's only other use is to pre-size the output buffer
(`Vec::with_capacity`, line 312), which does not affect the result. -/
def assemble (input : List Tok) : Except String (List Nat) :=
  match measurePass ((cleaned input).length + 1) (cleaned input) [] 0 with
  | .error e => .error e
  | .ok (tbl, _count) =>
      emitPass (groupsOfF ((cleaned input).length + 1) (cleaned input)) tbl 0

set_option maxRecDepth 100000

/-! ## Helper lemmas -/

/-- Success of the signed emission step is exactly the source's bound
check `min_value <= val && max_value >= val`. -/
theorem emitSignedBytes_isOk (size : Nat) (v : Int) (c : CanConsume) :
    (emitSignedBytes size v c).isOk = true
      ↔ (signedMinBound size ≤ v ∧ signedMaxBound size ≥ v) := by
  unfold emitSignedBytes
  split
  · rename_i h
    simp [Except.isOk, Except.toBool, h]
  · rename_i h
    simp [Except.isOk, Except.toBool, h]

/-- Success of the unsigned emission step is exactly the source's bound
check `max_value >= val`. -/
theorem emitUnsignedBytes_isOk (size : Nat) (v : Nat) (c : CanConsume) :
    (emitUnsignedBytes size v c).isOk = true ↔ v ≤ unsignedMaxBound size := by
  unfold emitUnsignedBytes
  split
  · rename_i h
    simp [Except.isOk, Except.toBool]
    exact h
  · rename_i h
    simp [Except.isOk, Except.toBool]
    omega

/-! ## Claim theorems -/

/-- C1: for every `.bytes` directive with a signed type of byte width
`s = 2^p` (suffix p ≤ 4) and integer value `v` (resolved symbolically
or parsed as a literal), the emission step succeeds iff
`-(2^(8·s-1)) - 1 ≤ v ≤ 2^(8·s-1)` — the exact one-past-two's-complement
boundary of the source; and concretely `.bytes i0, 200` fails with the
out-of-bound error reporting actual 200, minimum -129, maximum 128. -/
theorem C1_signed_bounds :
    (∀ (p : Fin 5) (v : Int) (c : CanConsume),
        (emitSignedBytes (2 ^ p.val) v c).isOk = true
          ↔ (-((2 : Int) ^ (8 * 2 ^ p.val - 1)) - 1 ≤ v
              ∧ v ≤ (2 : Int) ^ (8 * 2 ^ p.val - 1)))
    ∧ assemble [strT ".bytes i0, 200"]
        = .error "Directive parsing error: Bytes value out of bounds (actual, minimum, maximum): 200, -129, 128" := by
  constructor
  · intro p v c
    rw [emitSignedBytes_isOk]
    unfold signedMinBound signedMaxBound
    rw [Nat.mul_comm (2 ^ p.val) 8]
  · rfl

/-- C2 counterexample: the claim (like spec §4.3) renders the unsigned
bound strict (`v < 2^(8·s)`), but the source's check `max_value >= val`
accepts the boundary: `.bytes u0, 256` (width 1, v = 2^8) assembles to
the single truncated byte 0 instead of failing. -/
theorem C2_cx_boundary_accepted : assemble [strT ".bytes u0, 256"] = .ok [0] := rfl

/-- C2 (amended): for an unsigned type of byte width `s = 2^p` the
emission step succeeds iff `0 ≤ v ≤ 2^(8·s)` — the upper boundary
value is accepted and emits the truncated bytes; e.g. `.bytes u1,
65536` emits two zero bytes. -/
theorem C2_unsigned_bounds_amended :
    (∀ (p : Fin 5) (v : Nat) (c : CanConsume),
        (emitUnsignedBytes (2 ^ p.val) v c).isOk = true ↔ v ≤ 2 ^ (8 * 2 ^ p.val))
    ∧ assemble [strT ".bytes u1, 65536"] = .ok [0, 0] := by
  constructor
  · intro p v c
    rw [emitUnsignedBytes_isOk]
    unfold unsignedMaxBound
    rw [Nat.mul_comm (2 ^ p.val) 8]
  · rfl

/-- C3 counterexample: input whose only group holds the unconsumed
token `garbage`, matching neither the directive nor any instruction;
the claim demands a fatal "stuck" error, but `assemble` returns Ok —
the `_ => break` arm (src/raw.rs line 395) merely ends the group. -/
theorem C3_cx_no_stuck_error : assemble [strT "garbage"] = .ok [] := rfl

/-- C3 (amended): when neither the directive nor an instruction parses
at a position with unconsumed tokens, the emit pass silently abandons
the rest of the current group and continues with the next group; no
"stuck" error exists and `assemble` can return Ok — here `garbage` is
skipped while both surrounding `.bytes` directives are emitted. -/
theorem C3_skip_and_continue :
    assemble [strT ".bytes u0, 7 garbage lbl: .bytes u0, 9"] = .ok [7, 9] := rfl

/-- C4: evaluating the code at the failing input: `.bytes u0,
doesnotexist` with no label declared returns Ok with an EMPTY buffer.
The `UnknownSymbol` failure raised inside the directive during the
emit pass is stringly-typed and discarded by the `if let Ok`
(src/raw.rs line 351); the subsequent instruction parse of `.bytes`
gives a no-match, which ends the group — nothing is surfaced. -/
theorem C4_unknown_symbol_swallowed :
    assemble [strT ".bytes u0, doesnotexist"] = .ok [] := rfl

/-- C5 counterexample: with an empty label table (both labels absent),
`Distance(x, y)` reports `y` — the second label — as unknown: the
source checks `sym2` first (src/raw.rs lines 333-336), while the claim
says `a` is checked first and would require the error to name `x`. -/
theorem C5_cx_checks_second_first :
    emitResolver [] 0 (.Distance (strT "x") (strT "y")) = .error (strT "y")
      ∧ ¬ strT "y" = strT "x" := by
  exact ⟨rfl, by decide⟩

/-- C5 (amended): `Distance(a, b)` checks `b`'s presence first, then
`a`'s: the result is `error b` exactly when `b` is absent; when `b` is
present and `a` absent the result is `error a`; when both are present
it is `table[b] - table[a]` (this last part of the claim holds as
stated). -/
theorem C5_distance_check_order (tbl : LabelTable) (bc : Int) (a b : Tok) :
    (emitResolver tbl bc (.Distance a b) = .error b ↔ containsTbl tbl b = false)
    ∧ (containsTbl tbl b = true → containsTbl tbl a = false →
        emitResolver tbl bc (.Distance a b) = .error a)
    ∧ (containsTbl tbl b = true → containsTbl tbl a = true →
        emitResolver tbl bc (.Distance a b) = .ok (getTbl tbl b - getTbl tbl a)) := by
  have he : emitResolver tbl bc (.Distance a b)
      = if ¬ containsTbl tbl b = true then .error b
        else if ¬ containsTbl tbl a = true then .error a
        else .ok (getTbl tbl b - getTbl tbl a) := rfl
  by_cases hb : containsTbl tbl b
  · by_cases ha : containsTbl tbl a
    · rw [he, if_neg (by simp [hb]), if_neg (by simp [ha])]
      refine ⟨⟨fun h => absurd h (by simp), fun h => absurd hb (by simp [h])⟩,
        fun _ h => absurd ha (by simp [h]), fun _ _ => rfl⟩
    · rw [he, if_neg (by simp [hb]), if_pos (by simp [ha])]
      refine ⟨⟨fun h => ?_, fun h => absurd hb (by simp [h])⟩,
        fun _ _ => rfl, fun _ h => absurd h (by simp [ha])⟩
      have hab : a = b := by simpa using h
      rw [hab] at ha
      exact absurd hb ha
  · rw [he, if_pos (by simp [hb])]
    refine ⟨⟨fun _ => by simpa using hb, fun _ => rfl⟩,
      fun h => absurd hb (by simp [h]), fun h => absurd hb (by simp [h])⟩

/-- C5 witness: the amended order theorem at concrete tables: with `q`
present and `p` absent, `Distance(p, q)` fails naming `p`; with both
present it returns the address difference `table[q] - table[p]`. -/
theorem C5_distance_check_order_witness :
    emitResolver [(strT "q", 7)] 0 (.Distance (strT "p") (strT "q")) = .error (strT "p")
    ∧ emitResolver [(strT "p", 4), (strT "q", 10)] 0 (.Distance (strT "p") (strT "q"))
        = .ok 6 := by
  constructor
  · exact (C5_distance_check_order [(strT "q", 7)] 0 (strT "p") (strT "q")).2.1
      (by decide) (by decide)
  · have h := (C5_distance_check_order [(strT "p", 4), (strT "q", 10)] 0
      (strT "p") (strT "q")).2.2 (by decide) (by decide)
    rw [h]
    rfl

/-- C7: evaluating the code at the failing input `.bytes i2,
nosuchlabel`: the measure pass resolves the symbolic value with the
placeholder resolver and counts 4 bytes, but the emit pass drops the
failing directive (see C4) and returns Ok with an empty buffer — on an
Ok result the measured count (4) and the emitted length (0) disagree. -/
theorem C7_measure_emit_mismatch :
    measurePass ((cleaned [strT ".bytes i2, nosuchlabel"]).length + 1)
        (cleaned [strT ".bytes i2, nosuchlabel"]) [] 0 = .ok ([], 4)
    ∧ assemble [strT ".bytes i2, nosuchlabel"] = .ok [] := ⟨rfl, rfl⟩

/-- C9: the width-16 range bounds overflow 128-bit arithmetic:
`2u128.pow(8·16)` is `2^128 > u128::MAX` and `2i128.pow(8·16-1)` is
`2^127 > i128::MAX`, so for a `u4`/`i4` directive the source's bound
computations (src/raw.rs lines 147-148, 178) cannot be performed in
128-bit integers without overflow; the bounds for every smaller width
(suffix ≤ 3) do fit. -/
theorem C9_width16_bounds_overflow :
    unsignedMaxBound 16 = 2 ^ 128 ∧ u128Max < unsignedMaxBound 16
    ∧ signedMaxBound 16 = 2 ^ 127 ∧ i128Max < signedMaxBound 16
    ∧ (∀ p : Fin 4, unsignedMaxBound (2 ^ p.val) ≤ u128Max
        ∧ signedMaxBound (2 ^ p.val) ≤ i128Max) := by
  refine ⟨rfl, by decide, rfl, by decide, ?_⟩
  intro p
  fin_cases p <;> exact ⟨by decide, by decide⟩

/-- A consumption descriptor that consumed at least one token or
character. -/
def CanConsume.Pos (c : CanConsume) : Prop := 0 < c.tokens ∨ 0 < c.chars

/-- Sequencing preserves positive consumption of the first part. -/
theorem CanConsume.seq_pos {a : CanConsume} (b : CanConsume) (h : a.Pos) :
    (a.seq b).Pos := by
  unfold CanConsume.seq
  split
  · rcases h with h | h
    · exact Or.inl h
    · exact Or.inr (Nat.lt_of_lt_of_le h (Nat.le_add_right _ _))
  · rename_i hb
    exact Or.inl (Nat.lt_of_lt_of_le (Nat.pos_of_ne_zero hb) (Nat.le_add_left _ _))

/-- A successful literal parse of a nonempty word consumed something. -/
theorem parseLit_pos {w : List Char} {toks r : List Tok} {c : CanConsume}
    (hw : 0 < w.length) (h : parseLit w toks = some (r, c)) : c.Pos := by
  cases toks with
  | nil => exact absurd h (by simp [parseLit])
  | cons t ts =>
    simp only [parseLit] at h
    by_cases hm : litMatches w t = true
    · rw [if_pos hm] at h
      by_cases hr : t.drop w.length = []
      · simp only [if_pos hr, Option.some.injEq, Prod.mk.injEq] at h
        obtain ⟨-, rfl⟩ := h
        exact Or.inl Nat.one_pos
      · simp only [if_neg hr, Option.some.injEq, Prod.mk.injEq] at h
        obtain ⟨-, rfl⟩ := h
        exact Or.inr hw
    · rw [if_neg hm] at h
      cases h

/-- The keyword-type-comma prefix of the directive consumed something
(the keyword alone spans six characters). -/
theorem parseKwTypeComma_pos {toks toks3 : List Tok} {sn : Bool × Nat} {c : CanConsume}
    (h : parseKwTypeComma toks = some (sn, toks3, c)) : c.Pos := by
  unfold parseKwTypeComma at h
  cases h1 : parseLit dirBytesWord toks with
  | none => rw [h1] at h; cases h
  | some v1 =>
    obtain ⟨toks1, c1⟩ := v1
    simp only [h1] at h
    cases h2 : parseTypeTok toks1 with
    | none =>
        simp only [h2] at h
        exact Option.noConfusion h
    | some v2 =>
      obtain ⟨sn2, toks2, c2⟩ := v2
      simp only [h2] at h
      cases h3 : parseLit [','] toks2 with
      | none =>
          simp only [h3] at h
          exact Option.noConfusion h
      | some v3 =>
        obtain ⟨toksf, c3⟩ := v3
        simp only [h3, Option.some.injEq, Prod.mk.injEq] at h
        obtain ⟨-, -, rfl⟩ := h
        exact CanConsume.seq_pos _ (parseLit_pos (by decide) h1)

/-- A successful signed emission returns the consumption it was given. -/
theorem emitSignedBytes_ok_consumed {size : Nat} {v : Int} {c c2 : CanConsume}
    {bs : List Nat} (h : emitSignedBytes size v c = .ok (bs, c2)) : c2 = c := by
  unfold emitSignedBytes at h
  split at h
  · simp only [Except.ok.injEq, Prod.mk.injEq] at h
    exact h.2.symm
  · cases h

/-- A successful unsigned emission returns the consumption it was given. -/
theorem emitUnsignedBytes_ok_consumed {size : Nat} {v : Nat} {c c2 : CanConsume}
    {bs : List Nat} (h : emitUnsignedBytes size v c = .ok (bs, c2)) : c2 = c := by
  unfold emitUnsignedBytes at h
  split at h
  · simp only [Except.ok.injEq, Prod.mk.injEq] at h
    exact h.2.symm
  · cases h

/-- A successful directive parse consumed something: the driver's loops
always advance. -/
theorem parse_bytes_direcive_pos {toks : List Tok} {f : Resolve → Except Tok Int}
    {bs : List Nat} {c : CanConsume}
    (h : parse_bytes_direcive toks f = .ok (bs, c)) : c.Pos := by
  unfold parse_bytes_direcive at h
  cases hk : parseKwTypeComma toks with
  | none => rw [hk] at h; cases h
  | some v =>
    obtain ⟨⟨signed, pow2⟩, toks1, c1⟩ := v
    rw [hk] at h
    have hc1 : c1.Pos := parseKwTypeComma_pos hk
    simp only at h
    by_cases hs : signed = true
    · rw [if_pos hs] at h
      cases hr : parseRefValue toks1 f with
      | ok vr =>
          obtain ⟨v2, toks2, c2⟩ := vr
          rw [hr] at h
          rw [emitSignedBytes_ok_consumed h]
          exact CanConsume.seq_pos _ hc1
      | error e =>
          rw [hr] at h
          cases hl : parseIntLit toks1 with
          | none => rw [hl] at h; cases h
          | some vl =>
              obtain ⟨v2, toks2, c2⟩ := vl
              rw [hl] at h
              rw [emitSignedBytes_ok_consumed h]
              exact CanConsume.seq_pos _ hc1
    · rw [if_neg hs] at h
      cases hr : parseRefValue toks1 f with
      | ok vr =>
          obtain ⟨v2, toks2, c2⟩ := vr
          rw [hr] at h
          rw [emitUnsignedBytes_ok_consumed h]
          exact CanConsume.seq_pos _ hc1
      | error e =>
          rw [hr] at h
          cases hl : parseNatLit toks1 with
          | none => rw [hl] at h; cases h
          | some vl =>
              obtain ⟨v2, toks2, c2⟩ := vl
              rw [hl] at h
              rw [emitUnsignedBytes_ok_consumed h]
              exact CanConsume.seq_pos _ hc1

/-- The measure pass's advance always strictly shrinks the stream. -/
theorem advMeasure_shrink {c : CanConsume} (hpos : c.Pos) (tok : Tok) (rest : List Tok) :
    (advMeasure c (tok :: rest)).length ≤ rest.length := by
  unfold advMeasure
  by_cases hch : c.chars = 0
  · rw [if_pos hch]
    simp only [List.length_drop, List.length_cons]
    rcases hpos with h | h
    · omega
    · omega
  · rw [if_neg hch]
    simp only [List.length_drop, List.length_cons]
    omega

/-- Bool membership of a name among the table's keys. -/
theorem containsTbl_mem (tbl : LabelTable) (s : Tok) :
    containsTbl tbl s = true ↔ s ∈ tbl.map Prod.fst := by
  induction tbl with
  | nil => simp [containsTbl, lookupTbl]
  | cons kv rest ih =>
    obtain ⟨k, v⟩ := kv
    by_cases hk : k = s
    · simp [containsTbl, lookupTbl, hk]
    · simp only [containsTbl, lookupTbl, if_neg hk]
      rw [show ((k, v) :: rest).map Prod.fst = k :: rest.map Prod.fst from rfl]
      simp only [List.mem_cons]
      constructor
      · intro h
        exact Or.inr (ih.mp h)
      · intro h
        rcases h with h | h
        · exact absurd h.symm hk
        · exact ih.mpr h

/-- The first name in the list that repeats either an earlier one or a
name of `prev`: the name whose table insertion first hits an existing
key when the table already holds `prev`. -/
def firstDupGiven (prev : List Tok) : List Tok → Option Tok
  | [] => none
  | x :: xs => if x ∈ prev then some x else firstDupGiven (x :: prev) xs

/-- If the walk of the measure pass inserts a name already present, the
pass fails with the duplicate-label error naming it. -/
theorem measurePass_dup (fuel : Nat) :
    ∀ (toks : List Tok) (tbl : LabelTable) (count : Int) (n : Tok),
      toks.length ≤ fuel →
      firstDupGiven (tbl.map Prod.fst) (declaredNames fuel toks) = some n →
      measurePass fuel toks tbl count = .error (dupMsg n) := by
  induction fuel with
  | zero =>
    intro toks tbl count n hlen hdup
    have hnil : toks = [] := List.length_eq_zero.mp (Nat.le_zero.mp hlen)
    subst hnil
    simp [declaredNames, firstDupGiven] at hdup
  | succ f ih =>
    intro toks tbl count n hlen hdup
    cases toks with
    | nil => simp [declaredNames, firstDupGiven] at hdup
    | cons tok rest =>
      have hlenr : rest.length ≤ f := by
        simp only [List.length_cons] at hlen
        omega
      by_cases hlab : isLabelPos tok rest = true
      · rw [show declaredNames (f + 1) (tok :: rest)
            = labelOf tok :: declaredNames f rest by simp [declaredNames, hlab]] at hdup
        by_cases hmem : labelOf tok ∈ tbl.map Prod.fst
        · rw [show firstDupGiven (tbl.map Prod.fst) (labelOf tok :: declaredNames f rest)
              = some (labelOf tok) by simp [firstDupGiven, hmem]] at hdup
          obtain rfl : labelOf tok = n := by simpa using hdup
          simp only [measurePass, if_pos hlab]
          rw [if_pos ((containsTbl_mem tbl (labelOf tok)).mpr hmem)]
        · rw [show firstDupGiven (tbl.map Prod.fst) (labelOf tok :: declaredNames f rest)
              = firstDupGiven (labelOf tok :: tbl.map Prod.fst) (declaredNames f rest) by
            simp [firstDupGiven, hmem]] at hdup
          simp only [measurePass, if_pos hlab]
          rw [if_neg (fun hcon => hmem ((containsTbl_mem tbl (labelOf tok)).mp hcon))]
          exact ih rest ((labelOf tok, count) :: tbl) count n hlenr hdup
      · by_cases hdir : tok = dirBytesWord
        · subst hdir
          cases hp : parse_bytes_direcive (dirBytesWord :: rest) placeholderResolver with
          | ok v =>
            obtain ⟨bytes, c⟩ := v
            rw [show declaredNames (f + 1) (dirBytesWord :: rest)
                = declaredNames f (advMeasure c (dirBytesWord :: rest)) by
              simp [declaredNames, hlab, hp]] at hdup
            have hc : c.Pos := parse_bytes_direcive_pos hp
            simp only [measurePass, if_neg hlab, if_pos rfl, hp]
            exact ih (advMeasure c (dirBytesWord :: rest)) tbl (count + bytes.length) n
              (Nat.le_trans (advMeasure_shrink hc dirBytesWord rest) hlenr) hdup
          | error e =>
            rw [show declaredNames (f + 1) (dirBytesWord :: rest) = [] by
              simp [declaredNames, hlab, hp]] at hdup
            simp [firstDupGiven] at hdup
        · rw [show declaredNames (f + 1) (tok :: rest) = declaredNames f rest by
            simp [declaredNames, hlab, hdir]] at hdup
          by_cases hmn : INSTRUCTION_MNEMONICS.contains tok = true
          · simp only [measurePass, if_neg hlab, if_neg hdir, if_pos hmn]
            exact ih rest tbl (count + 2) n hlenr hdup
          · simp only [measurePass, if_neg hlab, if_neg hdir, if_neg hmn]
            exact ih rest tbl count n hlenr hdup

/-- C6: for every input whose measure pass declares the same label name
twice — `firstDupGiven` finds the name whose second insertion hits the
label table — `assemble` fails with the duplicate-label error naming
that label; the error arises in the measure (first) pass
(`measurePass`, the first stage of `assemble`), and no byte buffer is
returned. -/
theorem C6_duplicate_label (input : List Tok) (n : Tok)
    (h : firstDupGiven []
        (declaredNames ((cleaned input).length + 1) (cleaned input)) = some n) :
    assemble input = .error (dupMsg n) := by
  unfold assemble
  rw [measurePass_dup ((cleaned input).length + 1) (cleaned input) [] 0 n
    (Nat.le_succ _) h]

/-- C6 witness: the label `foo` declared twice makes the pass insert
`foo` a second time; `assemble` fails with the error naming `foo`. -/
theorem C6_duplicate_label_witness :
    firstDupGiven [] (declaredNames ((cleaned [strT "foo: foo:"]).length + 1)
        (cleaned [strT "foo: foo:"])) = some (strT "foo")
    ∧ assemble [strT "foo: foo:"] = .error (dupMsg (strT "foo")) :=
  ⟨rfl, C6_duplicate_label [strT "foo: foo:"] (strT "foo") rfl⟩

/-- The whitespace-and-comment grammar of claim C8: a string made of
whitespace characters and `;`-comments, each comment running to a LF
or CR (which the comment stripper consumes) or to the end of the
string. -/
inductive IsIgnoredItem : List Char → Prop where
  | nil : IsIgnoredItem []
  | ws {c : Char} {rest : List Char} :
      isWsChar c = true → IsIgnoredItem rest → IsIgnoredItem (c :: rest)
  | comment {body : List Char} {nl : Char} {rest : List Char} :
      body.all (fun c => ¬ c = '\n' ∧ ¬ c = '\r') = true →
      (nl = '\n' ∨ nl = '\r') → IsIgnoredItem rest →
      IsIgnoredItem (';' :: (body ++ nl :: rest))
  | commentEnd {body : List Char} :
      body.all (fun c => ¬ c = '\n' ∧ ¬ c = '\r') = true →
      IsIgnoredItem (';' :: body)

/-- A whitespace character is not the comment marker. -/
theorem wsChar_ne_semi {c : Char} (h : isWsChar c = true) : ¬ c = ';' := by
  intro hc
  subst hc
  simp [isWsChar] at h

/-- The comment stripper never yields an empty piece list. -/
theorem scAux_ne_nil (mode : Bool) (s : List Char) : ¬ scAux mode s = [] := by
  induction s generalizing mode with
  | nil => cases mode <;> simp [scAux]
  | cons c rest ih =>
    cases mode with
    | false =>
      by_cases hc : c = ';'
      · simp [scAux, hc]
      · simp only [scAux, if_neg hc]
        cases hsc : scAux false rest with
        | nil => exact absurd hsc (ih false)
        | cons p ps => simp [consHead]
    | true =>
      by_cases hc : c = '\n' ∨ c = '\r'
      · simp only [scAux, if_pos hc]
        exact ih false
      · simp only [scAux, if_neg hc]
        exact ih true

/-- Comment-mode stripping skips over any newline-free body. -/
theorem scAux_comment_skip (body x : List Char)
    (hb : body.all (fun c => ¬ c = '\n' ∧ ¬ c = '\r') = true) :
    scAux true (body ++ x) = scAux true x := by
  induction body with
  | nil => rfl
  | cons c cs ih =>
    simp only [List.all_cons, Bool.and_eq_true] at hb
    have h1 := of_decide_eq_true hb.1
    have hc : ¬ (c = '\n' ∨ c = '\r') := fun h => h.elim h1.1 h1.2
    simp only [List.cons_append, scAux, if_neg hc]
    exact ih hb.2

/-- Filtering the nonempty pieces ignores a leading empty piece. -/
theorem filter_ne_nil_cons_nil (L : List Tok) :
    (([] :: L).filter (fun t => ¬ t = [])) = L.filter (fun t => ¬ t = []) := by
  simp

/-- An all-ignored item contributes no nonempty whitespace words: the
core of claim C8. -/
theorem ignored_no_words {s : List Char} (h : IsIgnoredItem s) :
    ((stripComments s).flatMap splitWs).filter (fun t => ¬ t = []) = [] := by
  induction h with
  | nil => rfl
  | @ws c rest hc hrest ih =>
    have hne : ¬ c = ';' := wsChar_ne_semi hc
    unfold stripComments at ih ⊢
    rw [show scAux false (c :: rest) = consHead c (scAux false rest) by
      simp [scAux, hne]]
    cases hsc : scAux false rest with
    | nil => exact absurd hsc (scAux_ne_nil false rest)
    | cons p ps =>
      rw [hsc] at ih
      simp only [consHead]
      show List.filter (fun t => ¬ t = []) (splitWs (c :: p) ++ ps.flatMap splitWs) = []
      rw [show splitWs (c :: p) = [] :: splitWs p by simp [splitWs, hc],
        List.cons_append, filter_ne_nil_cons_nil]
      exact ih
  | @comment body nl rest hbody hnl hrest ih =>
    unfold stripComments at ih ⊢
    rw [show scAux false (';' :: (body ++ nl :: rest))
        = [] :: scAux true (body ++ nl :: rest) by simp [scAux]]
    rw [scAux_comment_skip body (nl :: rest) hbody]
    rw [show scAux true (nl :: rest) = scAux false rest by simp [scAux, hnl]]
    show List.filter (fun t => ¬ t = []) ([] :: (scAux false rest).flatMap splitWs) = []
    rw [filter_ne_nil_cons_nil]
    exact ih
  | @commentEnd body hbody =>
    unfold stripComments
    rw [show scAux false (';' :: body) = [] :: scAux true body by simp [scAux]]
    rw [show scAux true body = scAux true [] from by
      simpa using scAux_comment_skip body [] hbody]
    rfl

/-- An all-ignored item cleans to no tokens at all. -/
theorem ignored_cleanItem {s : List Char} (h : IsIgnoredItem s) : cleanItem s = [] := by
  unfold cleanItem
  rw [ignored_no_words h]
  rfl

/-- Claim C8's insertion relation: `ys` is `xs` with extra items, each
made only of whitespace and comments, inserted anywhere between,
before, or after its items. -/
inductive InsertIgnored : List Tok → List Tok → Prop where
  | nil : InsertIgnored [] []
  | keep {x : Tok} {xs ys : List Tok} :
      InsertIgnored xs ys → InsertIgnored (x :: xs) (x :: ys)
  | ins {i : Tok} {xs ys : List Tok} :
      IsIgnoredItem i → InsertIgnored xs ys → InsertIgnored xs (i :: ys)

/-- Inserting ignored items leaves the cleaned token stream unchanged. -/
theorem insertIgnored_cleaned {xs ys : List Tok} (h : InsertIgnored xs ys) :
    cleaned ys = cleaned xs := by
  induction h with
  | nil => rfl
  | @keep x xs1 ys1 hprev ih =>
    show cleanItem x ++ cleaned ys1 = cleanItem x ++ cleaned xs1
    rw [ih]
  | @ins i xs1 ys1 hi hprev ih =>
    show cleanItem i ++ cleaned ys1 = cleaned xs1
    rw [ignored_cleanItem hi, ih]
    rfl

/-- C8: for every input that assembles successfully to some byte
buffer, inserting arbitrary items of spaces, tabs, line feeds,
carriage returns, or `;`-to-end-of-line comments between its items
yields an input on which `assemble` returns the identical buffer. -/
theorem C8_ws_comment_insensitivity (xs ys : List Tok) (b : List Nat)
    (hins : InsertIgnored xs ys) (hok : assemble xs = .ok b) :
    assemble ys = .ok b := by
  unfold assemble at hok ⊢
  rw [insertIgnored_cleaned hins]
  exact hok

/-- C8 witness: the insensitivity theorem applied to `.bytes u0, 7`
with a whitespace item inserted before it and a comment item after. -/
theorem C8_ws_comment_insensitivity_witness :
    InsertIgnored [strT ".bytes u0, 7"]
        [strT " \t", strT ".bytes u0, 7", strT "; trailing note"]
    ∧ assemble [strT " \t", strT ".bytes u0, 7", strT "; trailing note"] = .ok [7] := by
  have h1 : IsIgnoredItem (strT " \t") := by
    rw [show strT " \t" = ' ' :: '\t' :: [] from rfl]
    exact IsIgnoredItem.ws (by decide) (IsIgnoredItem.ws (by decide) IsIgnoredItem.nil)
  have h2 : IsIgnoredItem (strT "; trailing note") := by
    rw [show strT "; trailing note" = ';' :: strT " trailing note" from rfl]
    exact IsIgnoredItem.commentEnd (by decide)
  have hins : InsertIgnored [strT ".bytes u0, 7"]
      [strT " \t", strT ".bytes u0, 7", strT "; trailing note"] :=
    .ins h1 (.keep (.ins h2 .nil))
  exact ⟨hins, C8_ws_comment_insensitivity _ _ _ hins rfl⟩

/-- C10: when tokenization yields no tokens — the empty input, or one
made only of whitespace and `;`-comments — `assemble` returns Ok with
an empty byte buffer. -/
theorem C10_empty_input (input : List Tok) (h : cleaned input = []) :
    assemble input = .ok [] := by
  unfold assemble
  rw [h]
  rfl

/-- C10 witness: a concrete whitespace-and-comment-only input. -/
theorem C10_empty_input_witness :
    cleaned [strT "  ", strT "\t ; note", strT "; x"] = []
      ∧ assemble [strT "  ", strT "\t ; note", strT "; x"] = .ok [] :=
  ⟨rfl, C10_empty_input [strT "  ", strT "\t ; note", strT "; x"] rfl⟩

end ScryAsm
